import Mathlib

/-!
# Verification of the forever-plugin file codec and sync reconciler

A shallow embedding of the plugin's core logic (`src/files.ts` and the
`src/index.ts` tool surface it is bundled with, plus `src/client.ts`):

* the content codec: `isBinary`, `readAndEncodeFile`, `writeDecodedFile`;
* the project resolver `resolveProject`;
* the credential store / `createApiClient`;
* the `memory_sync_files` reconciliation loop.

Modelling conventions:

* File bytes are `List Nat` with every element `< 256` (a `Buffer`).
* JavaScript strings are `List Nat` of Unicode code points (surrogate
  pairs are modelled as the single astral code point they denote, which
  is how they encode to UTF-8 and how a valid decode produces them).
* `buffer.toString('utf-8')` is modelled by `utf8DecodeReplace`
  (WHATWG decoding, replacement character `U+FFFD` on errors), and
  `writeFileSync(path, s, 'utf-8')` by `utf8Encode`.
* `Buffer.toString('base64')` / `Buffer.from(s, 'base64')` are modelled
  by `b64Encode` / `b64Decode` (standard RFC 4648 alphabet, `=` padding).
* Functions that can throw are modelled with `Except String`; functions
  whose `null` result is meaningful return `Option`.
-/

/-! ## Definitions -/

/-- The banned-prefix sentinel `"base64:"` as a list of code points
(`b`, `a`, `s`, `e`, `6`, `4`, `:`). -/
def base64PrefixCodes : List Nat := [98, 97, 115, 101, 54, 52, 58]

/-- Code-point value of the base64 digit with sextet value `s`
(the `A-Za-z0-9+/` alphabet used by `Buffer.toString('base64')`). -/
def b64Char (s : Nat) : Nat :=
  if s < 26 then 65 + s
  else if s < 52 then 71 + s
  else if s < 62 then s - 4
  else if s = 62 then 43
  else 47

/-- Sextet value of a base64 digit code point, `none` for non-digits
(`=` is not a digit). Models the inverse alphabet used by
`Buffer.from(s, 'base64')`. -/
def b64Val (c : Nat) : Option Nat :=
  if 65 ≤ c ∧ c < 91 then some (c - 65)
  else if 97 ≤ c ∧ c < 123 then some (c - 71)
  else if 48 ≤ c ∧ c < 58 then some (c + 4)
  else if c = 43 then some 62
  else if c = 47 then some 63
  else none

/-- Model of `Buffer.prototype.toString('base64')`: encode bytes three at a time
into four base64 digits, padding the final group with `=` (code 61). -/
def b64Encode : List Nat → List Nat
  | [] => []
  | [a] => [b64Char (a / 4), b64Char (a % 4 * 16), 61, 61]
  | [a, b] => [b64Char (a / 4), b64Char (a % 4 * 16 + b / 16), b64Char (b % 16 * 4), 61]
  | a :: b :: c :: t =>
    b64Char (a / 4) :: b64Char (a % 4 * 16 + b / 16) :: b64Char (b % 16 * 4 + c / 64)
      :: b64Char (c % 64) :: b64Encode t

/-- Model of `Buffer.from(s, 'base64')` on well-formed base64 text: decode four
digits at a time into three bytes, honouring `=` padding in the final
group. -/
def b64Decode : List Nat → List Nat
  | c1 :: c2 :: c3 :: c4 :: t =>
    match b64Val c1, b64Val c2 with
    | some s1, some s2 =>
      if c3 = 61 then [s1 * 4 + s2 / 16]
      else
        match b64Val c3 with
        | some s3 =>
          if c4 = 61 then [s1 * 4 + s2 / 16, s2 % 16 * 16 + s3 / 4]
          else
            match b64Val c4 with
            | some s4 =>
              (s1 * 4 + s2 / 16) :: (s2 % 16 * 16 + s3 / 4) :: (s3 % 4 * 64 + s4)
                :: b64Decode t
            | none => []
        | none => []
    | _, _ => []
  | _ => []

/-- A Unicode scalar value: a valid code point that is not a surrogate. -/
def ScalarValue (c : Nat) : Prop :=
  c < 1114112 ∧ ¬(55296 ≤ c ∧ c < 57344)

instance (c : Nat) : Decidable (ScalarValue c) := by
  unfold ScalarValue; infer_instance

/-- UTF-8 encoding of a sequence of code points, as performed by
`writeFileSync(path, s, 'utf-8')`: 1-4 bytes per code point; lone
surrogates (impossible in content produced by a valid decode) are
written as the replacement character `EF BF BD`, as Node does. -/
def utf8Encode : List Nat → List Nat
  | [] => []
  | c :: t =>
    (if c < 128 then [c]
     else if c < 2048 then [192 + c / 64, 128 + c % 64]
     else if 55296 ≤ c ∧ c < 57344 then [239, 191, 189]
     else if c < 65536 then [224 + c / 4096, 128 + c / 64 % 64, 128 + c % 64]
     else [240 + c / 262144, 128 + c / 4096 % 64, 128 + c / 64 % 64, 128 + c % 64])
    ++ utf8Encode t

/-- WHATWG UTF-8 decoding with replacement, as performed by
`buffer.toString('utf-8')`: well-formed 1-4 byte sequences become their
code point; malformed input becomes `U+FFFD` (65533). Overlong forms and
surrogate encodings are rejected (the value-range checks). On malformed
input the exact grouping of replacement characters is approximate (one
`U+FFFD` per offending byte); no theorem below depends on malformed
input, only on the behaviour for well-formed sequences, which is exact. -/
def utf8DecodeReplace : List Nat → List Nat
  | [] => []
  | [b0] => if b0 < 128 then [b0] else [65533]
  | [b0, b1] =>
    if b0 < 128 then b0 :: utf8DecodeReplace [b1]
    else if 194 ≤ b0 ∧ b0 < 224 ∧ 128 ≤ b1 ∧ b1 < 192 then
      [(b0 - 192) * 64 + (b1 - 128)]
    else 65533 :: utf8DecodeReplace [b1]
  | [b0, b1, b2] =>
    if b0 < 128 then b0 :: utf8DecodeReplace [b1, b2]
    else if 194 ≤ b0 ∧ b0 < 224 ∧ 128 ≤ b1 ∧ b1 < 192 then
      ((b0 - 192) * 64 + (b1 - 128)) :: utf8DecodeReplace [b2]
    else if 224 ≤ b0 ∧ b0 < 240 ∧ 128 ≤ b1 ∧ b1 < 192 ∧ 128 ≤ b2 ∧ b2 < 192 ∧
        2048 ≤ (b0 - 224) * 4096 + (b1 - 128) * 64 + (b2 - 128) ∧
        ScalarValue ((b0 - 224) * 4096 + (b1 - 128) * 64 + (b2 - 128)) then
      [(b0 - 224) * 4096 + (b1 - 128) * 64 + (b2 - 128)]
    else 65533 :: utf8DecodeReplace [b1, b2]
  | b0 :: b1 :: b2 :: b3 :: t =>
    if b0 < 128 then b0 :: utf8DecodeReplace (b1 :: b2 :: b3 :: t)
    else if 194 ≤ b0 ∧ b0 < 224 ∧ 128 ≤ b1 ∧ b1 < 192 then
      ((b0 - 192) * 64 + (b1 - 128)) :: utf8DecodeReplace (b2 :: b3 :: t)
    else if 224 ≤ b0 ∧ b0 < 240 ∧ 128 ≤ b1 ∧ b1 < 192 ∧ 128 ≤ b2 ∧ b2 < 192 ∧
        2048 ≤ (b0 - 224) * 4096 + (b1 - 128) * 64 + (b2 - 128) ∧
        ScalarValue ((b0 - 224) * 4096 + (b1 - 128) * 64 + (b2 - 128)) then
      ((b0 - 224) * 4096 + (b1 - 128) * 64 + (b2 - 128)) :: utf8DecodeReplace (b3 :: t)
    else if 240 ≤ b0 ∧ b0 < 245 ∧ 128 ≤ b1 ∧ b1 < 192 ∧ 128 ≤ b2 ∧ b2 < 192 ∧
        128 ≤ b3 ∧ b3 < 192 ∧
        65536 ≤ (b0 - 240) * 262144 + (b1 - 128) * 4096 + (b2 - 128) * 64 + (b3 - 128) ∧
        (b0 - 240) * 262144 + (b1 - 128) * 4096 + (b2 - 128) * 64 + (b3 - 128) < 1114112 then
      ((b0 - 240) * 262144 + (b1 - 128) * 4096 + (b2 - 128) * 64 + (b3 - 128))
        :: utf8DecodeReplace t
    else 65533 :: utf8DecodeReplace (b1 :: b2 :: b3 :: t)

/-- The function `isBinary` from `src/files.ts`: inspect only the first 8192 bytes
(`buffer.subarray(0, 8192)`); binary iff some sampled byte is `0x00`
(`sample.includes(0)`). -/
def isBinary (buffer : List Nat) : Bool :=
  (buffer.take 8192).contains 0

/-- The `content` string computed by `readAndEncodeFile`:
`isBinary(buffer) ? 'base64:' + buffer.toString('base64')
: buffer.toString('utf-8')`. -/
def encodeContent (buffer : List Nat) : List Nat :=
  if isBinary buffer then base64PrefixCodes ++ b64Encode buffer
  else utf8DecodeReplace buffer

/-- Result record of `readAndEncodeFile` (`{content, hash, size}`); the
`hash` field is MD5 via node's native `crypto` and no claim refers to
its value, so it is not carried in the model. -/
structure EncodedFile where
  content : List Nat
  size : Nat
  deriving DecidableEq, Repr

/-- The function `readAndEncodeFile` from `src/files.ts`, modelled on the bytes the
`readFileSync` call returned: throw `File exceeds 1MB limit (...)` when
`buffer.length > 1_048_576`, else return the encoded content and size. -/
def readAndEncodeFile (buffer : List Nat) : Except String EncodedFile :=
  if buffer.length > 1048576 then
    Except.error ("File exceeds 1MB limit (" ++ toString buffer.length ++ " bytes)")
  else
    Except.ok ⟨encodeContent buffer, buffer.length⟩

/-- The function `writeDecodedFile` from `src/files.ts`, modelled as the bytes it
writes to disk: if `content.startsWith('base64:')` decode
`content.slice(7)` as base64, else write the string UTF-8 encoded. -/
def writeDecodedFile (content : List Nat) : List Nat :=
  if base64PrefixCodes.isPrefixOf content then b64Decode (content.drop 7)
  else utf8Encode content

/-- Split a character list on `/` separators. -/
def splitSlash : List Char → List (List Char)
  | [] => [[]]
  | c :: t =>
    if c = '/' then [] :: splitSlash t
    else
      match splitSlash t with
      | h :: r => (c :: h) :: r
      | [] => [[c]]

/-- Model of `path.basename` (POSIX): the last non-empty `/`-separated segment,
or the empty string when there is none (`basename('/') = ''`). -/
def basename (p : String) : String :=
  String.mk ((((splitSlash p.data).filter (fun s => s ≠ [])).getLast?).getD [])

/-- JavaScript truthiness of a `string | undefined` value:
`undefined` and the empty string are falsy. -/
def jsTruthy (s : Option String) : Bool :=
  match s with
  | some v => v != ""
  | none => false

/-- The function `resolveProject` from `src/index.ts`. `explicit` is the optional
tool argument; `remote` models `git('remote', 'get-url', 'origin')`
(`none` when the shell-out failed); `cwd` models `process.cwd()`. -/
def resolveProject (explicit remote : Option String) (cwd : String) : Option String :=
  if jsTruthy explicit then explicit
  else if jsTruthy remote then remote
  else if cwd != "" && cwd != "/" then some (basename cwd)
  else none

/-- Credentials file contents (`~/.forever/credentials.json`). -/
structure Credentials where
  serverUrl : String
  token : String

/-- The function `getCredentials` from `src/client.ts`: `credFile` is the raw file
contents (`none` when `existsSync` is false); `parse` models
`JSON.parse` plus the field typing, with `none` for the caught throw. -/
def getCredentials (credFile : Option String)
    (parse : String → Option Credentials) : Option Credentials :=
  match credFile with
  | none => none
  | some s => parse s

/-- The axios instance configuration produced by `createApiClient`. -/
structure ApiClient where
  baseURL : String
  authHeader : String
  contentTypeHeader : String
  timeout : Nat

/-- Model of `serverUrl.replace(/\/$/, '')`: drop one trailing slash. -/
def trimTrailingSlash (s : String) : String :=
  if s.endsWith "/" then s.dropRight 1 else s

/-- The function `createApiClient` from `src/client.ts`: `null` when no credentials
are stored (returned, never thrown — the function is total), otherwise
an axios instance with bearer auth and a 10s default timeout. -/
def createApiClient (credFile : Option String)
    (parse : String → Option Credentials) (timeout? : Option Nat) : Option ApiClient :=
  match getCredentials credFile parse with
  | none => none
  | some creds =>
    some ⟨trimTrailingSlash creds.serverUrl ++ "/api",
      "Bearer " ++ creds.token, "application/json", timeout?.getD 10000⟩

/-- The uniform unauthenticated response text shared by every tool. -/
def notAuthText : String := "Not authenticated. Run: npx @squidcode/forever-plugin login"

/-- The `memory_log` tool handler from `src/index.ts`, modelled up to
its response text: the precondition chain (client non-null, project
resolvable) followed by the `POST /logs` outcome (`postResult` models
the awaited request). All other tools share the first two branches
verbatim. -/
def memory_log (credFile : Option String) (parse : String → Option Credentials)
    (project remote : Option String) (cwd : String)
    (postResult : Except String Unit) (typ : String) : String :=
  match createApiClient credFile parse none with
  | none => notAuthText
  | some _ =>
    match resolveProject project remote cwd with
    | none => "Could not detect project. Please specify a project name."
    | some proj =>
      match postResult with
      | Except.ok _ => "Logged " ++ typ ++ " entry for \x22" ++ proj ++ "\x22."
      | Except.error e => "Failed to log: " ++ e

/-- One element of the locally computed snapshot (`localFiles`). -/
structure LocalFile where
  filePath : String
  contentHash : String
  exists' : Bool
  deriving DecidableEq, Repr

/-- One element of the server's `/files/sync` response
(`syncRes.data.files`). -/
structure VerdictFile where
  filePath : String
  status : String
  deriving DecidableEq, Repr

/-- One pushed results line: `down p` models `results.push('↓ p')`,
`up p` models `results.push('↑ p')`. -/
inductive ActionLine where
  | down (p : String)
  | up (p : String)
  deriving DecidableEq, Repr

/-- Environment of the sync loop. `md5` models `computeMd5` (native
crypto, used only to fill the snapshot's `contentHash`); `fs` is the
local disk by file path (`existsSync` + `readFileSync`); `latest`
models `GET /files/latest` (throw, or `null` data, or content);
`store` models `POST /files/store` (throw or accept). -/
structure SyncEnv where
  md5 : List Nat → String
  fs : String → Option (List Nat)
  latest : String → Except String (Option (List Nat))
  store : String → List Nat → Except String Unit

/-- The local snapshot built for the shared-file list: hash of the
current bytes when the file exists, empty hash and `exists = false`
otherwise. -/
def buildLocalFiles (env : SyncEnv) (shared : List String) : List LocalFile :=
  shared.map fun p =>
    match env.fs p with
    | some bytes => ⟨p, env.md5 bytes, true⟩
    | none => ⟨p, "", false⟩

/-- Truthiness of `local?.exists` for
`localFiles.find((f) => f.filePath === file.filePath)`:
`undefined` (no matching snapshot entry) is falsy. -/
def localExists (lf : List LocalFile) (p : String) : Bool :=
  match lf.find? (fun f => f.filePath == p) with
  | some l => l.exists'
  | none => false

/-- The download-branch condition:
`file.status === 'download_needed' || (file.status === 'upload_needed' && !local?.exists)`. -/
def dlCond (lf : List LocalFile) (f : VerdictFile) : Bool :=
  f.status == "download_needed" || (f.status == "upload_needed" && !(localExists lf f.filePath))

/-- The upload-branch condition:
`file.status === 'upload_needed' && local?.exists`. -/
def upCond (lf : List LocalFile) (f : VerdictFile) : Bool :=
  f.status == "upload_needed" && localExists lf f.filePath

/-- Observable state of one `memory_sync_files` run: the `results`
action log, the three counters, and the traces of performed effects. -/
structure SyncState where
  results : List ActionLine
  downloaded : Nat
  uploaded : Nat
  upToDate : Nat
  fetched : List String
  stored : List (String × List Nat)
  written : List (String × List Nat)
  deriving DecidableEq, Repr

/-- The state at the start of the loop. -/
def initState : SyncState := ⟨[], 0, 0, 0, [], [], []⟩

/-- One iteration of the `for (const file of syncRes.data.files)` loop.
Returns the state after the iteration and `some e` when the iteration
threw (the exception the surrounding `try/catch` will catch). -/
def stepFile (env : SyncEnv) (lf : List LocalFile) (st : SyncState)
    (f : VerdictFile) : SyncState × Option String :=
  if dlCond lf f then
    let st1 := { st with fetched := st.fetched ++ [f.filePath] }
    match env.latest f.filePath with
    | Except.error e => (st1, some e)
    | Except.ok none => (st1, none)
    | Except.ok (some content) =>
      ({ st1 with
          written := st1.written ++ [(f.filePath, writeDecodedFile content)],
          results := st1.results ++ [ActionLine.down f.filePath],
          downloaded := st1.downloaded + 1 }, none)
  else if upCond lf f then
    match env.fs f.filePath with
    | none => (st, some "ENOENT: no such file or directory")
    | some bytes =>
      match readAndEncodeFile bytes with
      | Except.error e => (st, some e)
      | Except.ok enc =>
        let st1 := { st with stored := st.stored ++ [(f.filePath, enc.content)] }
        match env.store f.filePath enc.content with
        | Except.error e => (st1, some e)
        | Except.ok _ =>
          ({ st1 with
              results := st1.results ++ [ActionLine.up f.filePath],
              uploaded := st1.uploaded + 1 }, none)
  else ({ st with upToDate := st.upToDate + 1 }, none)

/-- The whole verdict loop: iterations run in order; the first thrown
error aborts the remainder of the batch (single `try/catch` around the
loop), keeping the effects already performed. -/
def runSync (env : SyncEnv) (lf : List LocalFile) :
    List VerdictFile → SyncState → SyncState × Option String
  | [], st => (st, none)
  | f :: rest, st =>
    match stepFile env lf st f with
    | (st1, some e) => (st1, some e)
    | (st1, none) => runSync env lf rest st1

/-- Local snapshot used by the concrete counterexample runs: both
shared files exist locally. -/
def lfC : List LocalFile := [⟨"a.txt", "h1", true⟩, ⟨"b.txt", "h2", true⟩]

/-- Verdicts used by the concrete counterexample runs: both files need
a download. -/
def vsC : List VerdictFile := [⟨"a.txt", "download_needed"⟩, ⟨"b.txt", "download_needed"⟩]

/-- Environment where fetching `a.txt` throws a network error and
`b.txt` has remote content. -/
def envC3 : SyncEnv :=
  ⟨fun _ => "", fun _ => none,
    fun p => if p = "a.txt" then Except.error "network error" else Except.ok (some [104, 105]),
    fun _ _ => Except.ok ()⟩

/-- Environment where the server has no latest content for `a.txt`
(while still reporting `download_needed`) and content for `b.txt`. -/
def envC4 : SyncEnv :=
  ⟨fun _ => "", fun _ => none,
    fun p => if p = "a.txt" then Except.ok none else Except.ok (some [104, 105]),
    fun _ _ => Except.ok ()⟩

/-- Environment for the upload-override witness run: the server knows
content `[104]` for `"x"`, the file is locally absent. -/
def envW1 : SyncEnv :=
  ⟨fun _ => "", fun _ => none, fun _ => Except.ok (some [104]), fun _ _ => Except.ok ()⟩

/-! ## Theorems -/

theorem b64Val_b64Char : ∀ s, s < 64 → b64Val (b64Char s) = some s := by decide

theorem b64Char_ne_pad : ∀ s, s < 64 → b64Char s ≠ 61 := by decide

/-- Decoding the base64 encoding of any byte sequence recovers the
bytes: `Buffer.from(buf.toString('base64'), 'base64')` is `buf`. -/
theorem b64_roundtrip (l : List Nat) (h : ∀ x ∈ l, x < 256) :
    b64Decode (b64Encode l) = l := by
  match l with
  | [] => rfl
  | [a] =>
    have ha : a < 256 := h a (by simp)
    have e1 := b64Val_b64Char (a / 4) (by omega)
    have e2 := b64Val_b64Char (a % 4 * 16) (by omega)
    simp only [b64Encode, b64Decode, e1, e2, if_pos]
    simp only [List.cons.injEq, and_true]
    omega
  | [a, b] =>
    have ha : a < 256 := h a (by simp)
    have hb : b < 256 := h b (by simp)
    have e1 := b64Val_b64Char (a / 4) (by omega)
    have e2 := b64Val_b64Char (a % 4 * 16 + b / 16) (by omega)
    have e3 := b64Val_b64Char (b % 16 * 4) (by omega)
    have n3 := b64Char_ne_pad (b % 16 * 4) (by omega)
    simp only [b64Encode, b64Decode, e1, e2, e3, if_neg n3, if_pos]
    simp only [List.cons.injEq, and_true]
    omega
  | a :: b :: c :: t =>
    have ha : a < 256 := h a (by simp)
    have hb : b < 256 := h b (by simp)
    have hc : c < 256 := h c (by simp)
    have ih := b64_roundtrip t (fun x hx => h x (by simp [hx]))
    have e1 := b64Val_b64Char (a / 4) (by omega)
    have e2 := b64Val_b64Char (a % 4 * 16 + b / 16) (by omega)
    have e3 := b64Val_b64Char (b % 16 * 4 + c / 64) (by omega)
    have e4 := b64Val_b64Char (c % 64) (by omega)
    have n3 := b64Char_ne_pad (b % 16 * 4 + c / 64) (by omega)
    have n4 := b64Char_ne_pad (c % 64) (by omega)
    simp only [b64Encode, b64Decode, e1, e2, e3, e4, if_neg n3, if_neg n4, ih]
    simp only [List.cons.injEq, and_true]
    omega

theorem utf8d_one (b0 : Nat) (t : List Nat) (h : b0 < 128) :
    utf8DecodeReplace (b0 :: t) = b0 :: utf8DecodeReplace t := by
  match t with
  | [] => simp only [utf8DecodeReplace, if_pos h]
  | [b1] => simp only [utf8DecodeReplace]; rw [if_pos h]
  | [b1, b2] => simp only [utf8DecodeReplace]; rw [if_pos h]
  | b1 :: b2 :: b3 :: t' => simp only [utf8DecodeReplace]; rw [if_pos h]

theorem utf8d_two (b0 b1 : Nat) (t : List Nat) (h0 : 194 ≤ b0) (h0' : b0 < 224)
    (h1 : 128 ≤ b1) (h1' : b1 < 192) :
    utf8DecodeReplace (b0 :: b1 :: t) =
      ((b0 - 192) * 64 + (b1 - 128)) :: utf8DecodeReplace t := by
  match t with
  | [] => simp only [utf8DecodeReplace]; rw [if_neg (by omega), if_pos (by omega)]
  | [b2] => simp only [utf8DecodeReplace]; rw [if_neg (by omega), if_pos (by omega)]
  | b2 :: b3 :: t' => simp only [utf8DecodeReplace]; rw [if_neg (by omega), if_pos (by omega)]

theorem utf8d_three (b0 b1 b2 : Nat) (t : List Nat) (h0 : 224 ≤ b0) (h0' : b0 < 240)
    (h1 : 128 ≤ b1) (h1' : b1 < 192) (h2 : 128 ≤ b2) (h2' : b2 < 192)
    (hv : 2048 ≤ (b0 - 224) * 4096 + (b1 - 128) * 64 + (b2 - 128))
    (hs : ScalarValue ((b0 - 224) * 4096 + (b1 - 128) * 64 + (b2 - 128))) :
    utf8DecodeReplace (b0 :: b1 :: b2 :: t) =
      ((b0 - 224) * 4096 + (b1 - 128) * 64 + (b2 - 128)) :: utf8DecodeReplace t := by
  match t with
  | [] =>
    simp only [utf8DecodeReplace]
    rw [if_neg (by omega), if_neg (by omega), if_pos ⟨by omega, by omega, h1, h1', h2, h2', hv, hs⟩]
  | b3 :: t' =>
    simp only [utf8DecodeReplace]
    rw [if_neg (by omega), if_neg (by omega), if_pos ⟨by omega, by omega, h1, h1', h2, h2', hv, hs⟩]

theorem utf8d_four (b0 b1 b2 b3 : Nat) (t : List Nat) (h0 : 240 ≤ b0) (h0' : b0 < 245)
    (h1 : 128 ≤ b1) (h1' : b1 < 192) (h2 : 128 ≤ b2) (h2' : b2 < 192)
    (h3 : 128 ≤ b3) (h3' : b3 < 192)
    (hv : 65536 ≤ (b0 - 240) * 262144 + (b1 - 128) * 4096 + (b2 - 128) * 64 + (b3 - 128))
    (hv' : (b0 - 240) * 262144 + (b1 - 128) * 4096 + (b2 - 128) * 64 + (b3 - 128) < 1114112) :
    utf8DecodeReplace (b0 :: b1 :: b2 :: b3 :: t) =
      ((b0 - 240) * 262144 + (b1 - 128) * 4096 + (b2 - 128) * 64 + (b3 - 128))
        :: utf8DecodeReplace t := by
  simp only [utf8DecodeReplace]
  rw [if_neg (by omega), if_neg (by omega), if_neg ?hne,
    if_pos ⟨by omega, by omega, h1, h1', h2, h2', h3, h3', hv, hv'⟩]
  case hne =>
    rintro ⟨ha, hb, -⟩
    omega

/-- Decoding the UTF-8 encoding of any sequence of Unicode scalar
values recovers that sequence: on valid UTF-8 input,
`buffer.toString('utf-8')` inverts `writeFileSync(_, s, 'utf-8')`. -/
theorem utf8_roundtrip (cs : List Nat) (h : ∀ c ∈ cs, ScalarValue c) :
    utf8DecodeReplace (utf8Encode cs) = cs := by
  induction cs with
  | nil => rfl
  | cons c t ih =>
    obtain ⟨hc1, hc2⟩ : ScalarValue c := h c (by simp)
    have iht := ih (fun x hx => h x (by simp [hx]))
    by_cases h1 : c < 128
    · have he : utf8Encode (c :: t) = c :: utf8Encode t := by
        simp only [utf8Encode, if_pos h1, List.singleton_append]
      rw [he, utf8d_one _ _ h1, iht]
    · by_cases h2 : c < 2048
      · have he : utf8Encode (c :: t) = (192 + c / 64) :: (128 + c % 64) :: utf8Encode t := by
          simp only [utf8Encode, if_neg h1, if_pos h2, List.cons_append, List.nil_append]
        rw [he, utf8d_two _ _ _ (by omega) (by omega) (by omega) (by omega),
          show (192 + c / 64 - 192) * 64 + (128 + c % 64 - 128) = c from by omega, iht]
      · by_cases h3 : c < 65536
        · have hns : ¬(55296 ≤ c ∧ c < 57344) := hc2
          have he : utf8Encode (c :: t) =
              (224 + c / 4096) :: (128 + c / 64 % 64) :: (128 + c % 64) :: utf8Encode t := by
            simp only [utf8Encode, if_neg h1, if_neg h2, if_neg hns, if_pos h3,
              List.cons_append, List.nil_append]
          have hv : (224 + c / 4096 - 224) * 4096 + (128 + c / 64 % 64 - 128) * 64 +
              (128 + c % 64 - 128) = c := by omega
          rw [he, utf8d_three _ _ _ _ (by omega) (by omega) (by omega) (by omega)
            (by omega) (by omega) (by omega) (by rw [hv]; exact ⟨hc1, hc2⟩), hv, iht]
        · have hns : ¬(55296 ≤ c ∧ c < 57344) := by omega
          have he : utf8Encode (c :: t) =
              (240 + c / 262144) :: (128 + c / 4096 % 64) :: (128 + c / 64 % 64)
                :: (128 + c % 64) :: utf8Encode t := by
            simp only [utf8Encode, if_neg h1, if_neg h2, if_neg hns, if_neg h3,
              List.cons_append, List.nil_append]
          have hv : (240 + c / 262144 - 240) * 262144 + (128 + c / 4096 % 64 - 128) * 4096 +
              (128 + c / 64 % 64 - 128) * 64 + (128 + c % 64 - 128) = c := by omega
          rw [he, utf8d_four _ _ _ _ _ (by omega) (by omega) (by omega) (by omega)
            (by omega) (by omega) (by omega) (by omega) (by omega) (by omega), hv, iht]

theorem utf8Encode_append (l1 l2 : List Nat) :
    utf8Encode (l1 ++ l2) = utf8Encode l1 ++ utf8Encode l2 := by
  induction l1 with
  | nil => rfl
  | cons c t ih =>
    simp only [List.cons_append, utf8Encode, List.append_eq, ih, List.append_assoc]

theorem isPrefixOf_append (l t : List Nat) : l.isPrefixOf (l ++ t) = true := by
  rw [ List.isPrefixOf_iff_prefix]; exact List.prefix_append l t

/-- C2 is false as stated: the seven text bytes of the literal string
`"base64:"` are accepted by `readAndEncodeFile` (text-classified, the
encoded content is the same seven code points), yet `writeDecodedFile`
sees the sentinel prefix, strips it and base64-decodes the empty
remainder, writing zero bytes instead of the original seven. -/
theorem c2_counterexample :
    isBinary [98, 97, 115, 101, 54, 52, 58] = false ∧
    readAndEncodeFile [98, 97, 115, 101, 54, 52, 58] =
      Except.ok ⟨[98, 97, 115, 101, 54, 52, 58], 7⟩ ∧
    writeDecodedFile [98, 97, 115, 101, 54, 52, 58] = [] ∧
    ([] : List Nat) ≠ [98, 97, 115, 101, 54, 52, 58] := by
  refine ⟨by decide, rfl, by decide, by decide⟩

/-- C2 (amended): for every byte sequence `B` that `readAndEncodeFile`
accepts, if `B` is binary-classified, or `B` is valid UTF-8 and does not
begin with the literal bytes `"base64:"`, then writing the encoded
content back with `writeDecodedFile` reproduces exactly `B`. (The two
excluded text cases — invalid UTF-8, which is lossily replaced by
`U+FFFD`, and a leading `"base64:"` sentinel — do not round-trip.) -/
theorem c2_roundtrip_amended (B : List Nat) (hbytes : ∀ b ∈ B, b < 256)
    (enc : EncodedFile) (henc : readAndEncodeFile B = Except.ok enc)
    (hside : isBinary B = true ∨
      ((∃ cs, (∀ c ∈ cs, ScalarValue c) ∧ utf8Encode cs = B) ∧
        ¬ base64PrefixCodes <+: B)) :
    writeDecodedFile enc.content = B := by
  have hc : enc.content = encodeContent B := by
    unfold readAndEncodeFile at henc
    split at henc
    · exact absurd henc (by simp)
    · cases henc; rfl
  rw [hc]
  by_cases hbin : isBinary B = true
  · rw [encodeContent, if_pos hbin, writeDecodedFile,
      if_pos (isPrefixOf_append base64PrefixCodes (b64Encode B)),
      show (7 : Nat) = base64PrefixCodes.length from rfl,
      List.drop_left base64PrefixCodes (b64Encode B)]
    exact b64_roundtrip B hbytes
  · rcases hside with h | ⟨⟨cs, hcs, hBcs⟩, hnp⟩
    · exact absurd h hbin
    · have hdec : utf8DecodeReplace B = cs := by
        rw [← hBcs]; exact utf8_roundtrip cs hcs
      have hnp2 : base64PrefixCodes.isPrefixOf cs ≠ true := by
        intro hpre
        rw [ List.isPrefixOf_iff_prefix] at hpre
        obtain ⟨s, hs⟩ := hpre
        apply hnp
        refine ⟨utf8Encode s, ?_⟩
        rw [← hBcs, ← hs, utf8Encode_append]
        rfl
      rw [encodeContent, if_neg hbin, hdec, writeDecodedFile, if_neg hnp2, hBcs]

/-- Witness for `c2_roundtrip_amended`: the two-byte binary buffer
`[0x00, 0xFF]` encodes to `"base64:AP8="` and decodes back exactly. -/
theorem c2_roundtrip_amended_witness :
    writeDecodedFile [98, 97, 115, 101, 54, 52, 58, 65, 80, 56, 61] = [0, 255] :=
  c2_roundtrip_amended [0, 255] (by decide)
    ⟨[98, 97, 115, 101, 54, 52, 58, 65, 80, 56, 61], 2⟩ rfl (Or.inl (by decide))

/-- C5: `readAndEncodeFile` fails with the size-limit error iff the
byte length exceeds 1,048,576; a buffer of exactly 1,048,576 bytes is
accepted and one of 1,048,577 bytes is rejected. -/
theorem c5_size_boundary :
    (∀ B : List Nat, (readAndEncodeFile B).isOk = true ↔ B.length ≤ 1048576) ∧
    (∀ B : List Nat,
      readAndEncodeFile B =
          Except.error ("File exceeds 1MB limit (" ++ toString B.length ++ " bytes)") ↔
        1048576 < B.length) ∧
    (readAndEncodeFile (List.replicate 1048576 7)).isOk = true ∧
    (readAndEncodeFile (List.replicate 1048577 7)).isOk = false := by
  refine ⟨fun B => ?_, fun B => ?_, ?_, ?_⟩
  · unfold readAndEncodeFile
    split
    next h =>
      simp only [Except.isOk, Except.toBool]
      constructor
      · intro hx
        exact absurd hx (by simp)
      · intro hx
        exact absurd h (by omega)
    next h =>
      simp only [Except.isOk, Except.toBool]
      constructor
      · intro
        omega
      · intro
        trivial
  · unfold readAndEncodeFile
    split
    next h => constructor <;> intro <;> first | rfl | exact h
    next h =>
      constructor
      · intro hx
        exact absurd hx (by simp)
      · intro
        omega
  · rw [readAndEncodeFile, List.length_replicate, if_neg (by omega)]
    rfl
  · rw [readAndEncodeFile, List.length_replicate, if_pos (by omega)]
    rfl

/-- C6: `isBinary` classifies a buffer as binary iff a byte among the
first 8,192 equals `0x00`; a lone null byte at offset 8,191 is binary,
the same byte moved to offset 8,192 is text. -/
theorem c6_binary_boundary :
    (∀ B : List Nat, isBinary B = true ↔ 0 ∈ B.take 8192) ∧
    isBinary (List.replicate 8191 1 ++ [0]) = true ∧
    isBinary (List.replicate 8192 1 ++ [0]) = false := by
  refine ⟨fun B => ?_, ?_, ?_⟩
  · rw [isBinary, List.elem_iff]
  · have ht : (List.replicate 8191 1 ++ [0]).take 8192 = List.replicate 8191 1 ++ [0] := by
      apply List.take_of_length_le
      simp only [List.length_append, List.length_replicate, List.length_singleton]
      omega
    rw [isBinary, List.elem_iff, ht]
    exact List.mem_append_right _ (List.mem_singleton.mpr rfl)
  · have ht : (List.replicate 8192 1 ++ [0]).take 8192 = List.replicate 8192 (1 : Nat) := by
      have := List.take_left (List.replicate 8192 (1 : Nat)) [0]
      rwa [List.length_replicate] at this
    rw [isBinary, ht]
    apply Bool.eq_false_iff.mpr
    intro hc
    have hm := List.elem_iff.mp hc
    have := (List.mem_replicate.mp hm).2
    omega

/-- C7: `resolveProject` precedence — a non-empty explicit argument is
returned verbatim; else a truthy git origin remote URL; else the base
name of the working directory; at the filesystem root (or an empty
cwd) resolution fails with `null`. -/
theorem c7_resolve_precedence :
    (∀ (e : String) (remote : Option String) (cwd : String), e ≠ "" →
      resolveProject (some e) remote cwd = some e) ∧
    (∀ (explicit : Option String) (r : String) (cwd : String),
      jsTruthy explicit = false → r ≠ "" →
      resolveProject explicit (some r) cwd = some r) ∧
    (∀ (explicit remote : Option String) (cwd : String),
      jsTruthy explicit = false → jsTruthy remote = false →
      cwd ≠ "" → cwd ≠ "/" →
      resolveProject explicit remote cwd = some (basename cwd)) ∧
    (∀ (explicit remote : Option String),
      jsTruthy explicit = false → jsTruthy remote = false →
      resolveProject explicit remote "/" = none) := by
  refine ⟨fun e remote cwd he => ?_, fun explicit r cwd hex hr => ?_,
    fun explicit remote cwd hex hrem h1 h2 => ?_, fun explicit remote hex hrem => ?_⟩
  · rw [resolveProject, if_pos]
    simp [jsTruthy, he]
  · rw [resolveProject, if_neg (by simp [hex]), if_pos (by simp [jsTruthy, hr])]
  · rw [resolveProject, if_neg (by simp [hex]), if_neg (by simp [hrem]),
      if_pos (by simp [h1, h2])]
  · rw [resolveProject, if_neg (by simp [hex]), if_neg (by simp [hrem]), if_neg (by simp)]

/-- Witness for `c7_resolve_precedence` at concrete inputs: explicit
beats remote, remote beats directory, directory base name, root fails. -/
theorem c7_resolve_precedence_witness :
    resolveProject (some "proj") (some "git@h:r.git") "/" = some "proj" ∧
    resolveProject none (some "git@h:r.git") "/" = some "git@h:r.git" ∧
    resolveProject none none "/home/user" = some "user" ∧
    resolveProject none none "/" = none :=
  ⟨c7_resolve_precedence.1 "proj" (some "git@h:r.git") "/" (by decide),
    c7_resolve_precedence.2.1 none "git@h:r.git" "/" rfl (by decide),
    (c7_resolve_precedence.2.2.1 none none "/home/user" rfl rfl (by decide)
      (by decide)).trans (by decide),
    c7_resolve_precedence.2.2.2 none none rfl rfl⟩

/-- C8: `createApiClient` returns `null` whenever no credentials are
stored — in particular when the credentials file is absent — and it is
a total function (absence is signalled only by the `null` result, never
by a raised error); the `memory_log` tool maps that `null` to the
uniform `Not authenticated` text response. -/
theorem c8_unauthenticated :
    (∀ parse, getCredentials none parse = none) ∧
    (∀ credFile parse timeout?, getCredentials credFile parse = none →
      createApiClient credFile parse timeout? = none) ∧
    (∀ credFile parse project remote cwd post typ,
      getCredentials credFile parse = none →
      memory_log credFile parse project remote cwd post typ = notAuthText) := by
  refine ⟨fun parse => rfl, fun credFile parse timeout? h => ?_,
    fun credFile parse project remote cwd post typ h => ?_⟩
  · rw [createApiClient, h]
  · rw [memory_log, createApiClient, h]

/-- Witness for `c8_unauthenticated`: with no credentials file at all,
the client factory yields `null` and `memory_log` answers with the
uniform text. -/
theorem c8_unauthenticated_witness :
    createApiClient none (fun _ => none) none = none ∧
    memory_log none (fun _ => none) none none "/" (Except.ok ()) "summary" = notAuthText :=
  ⟨c8_unauthenticated.2.1 none (fun _ => none) none rfl,
    c8_unauthenticated.2.2 none (fun _ => none) none none "/" (Except.ok ()) "summary" rfl⟩

/-- Exhaustive case analysis of one loop iteration: exactly one of the
three source branches applies, and within it the outcome is determined
by the environment. -/
theorem stepFile_cases (env : SyncEnv) (lf : List LocalFile) (st : SyncState)
    (f : VerdictFile) :
    (dlCond lf f = true ∧
      ((∃ e, env.latest f.filePath = Except.error e ∧
        stepFile env lf st f = ({ st with fetched := st.fetched ++ [f.filePath] }, some e)) ∨
       (env.latest f.filePath = Except.ok none ∧
        stepFile env lf st f = ({ st with fetched := st.fetched ++ [f.filePath] }, none)) ∨
       (∃ c, env.latest f.filePath = Except.ok (some c) ∧
        stepFile env lf st f = ({ st with
          results := st.results ++ [ActionLine.down f.filePath],
          downloaded := st.downloaded + 1,
          fetched := st.fetched ++ [f.filePath],
          written := st.written ++ [(f.filePath, writeDecodedFile c)] }, none)))) ∨
    (dlCond lf f = false ∧ upCond lf f = true ∧
      ((env.fs f.filePath = none ∧
        stepFile env lf st f = (st, some "ENOENT: no such file or directory")) ∨
       (∃ bytes e, env.fs f.filePath = some bytes ∧
        readAndEncodeFile bytes = Except.error e ∧
        stepFile env lf st f = (st, some e)) ∨
       (∃ bytes enc e, env.fs f.filePath = some bytes ∧
        readAndEncodeFile bytes = Except.ok enc ∧
        env.store f.filePath enc.content = Except.error e ∧
        stepFile env lf st f =
          ({ st with stored := st.stored ++ [(f.filePath, enc.content)] }, some e)) ∨
       (∃ bytes enc, env.fs f.filePath = some bytes ∧
        readAndEncodeFile bytes = Except.ok enc ∧
        env.store f.filePath enc.content = Except.ok () ∧
        stepFile env lf st f = ({ st with
          results := st.results ++ [ActionLine.up f.filePath],
          uploaded := st.uploaded + 1,
          stored := st.stored ++ [(f.filePath, enc.content)] }, none)))) ∨
    (dlCond lf f = false ∧ upCond lf f = false ∧
      stepFile env lf st f = ({ st with upToDate := st.upToDate + 1 }, none)) := by
  by_cases hd : dlCond lf f = true
  · refine Or.inl ⟨hd, ?_⟩
    cases hl : env.latest f.filePath with
    | error e => exact Or.inl ⟨e, rfl, by simp only [stepFile, if_pos hd, hl]⟩
    | ok o =>
      cases o with
      | none => exact Or.inr (Or.inl ⟨rfl, by simp only [stepFile, if_pos hd, hl]⟩)
      | some c => exact Or.inr (Or.inr ⟨c, rfl, by simp only [stepFile, if_pos hd, hl]⟩)
  · rw [Bool.not_eq_true] at hd
    by_cases hu : upCond lf f = true
    · refine Or.inr (Or.inl ⟨hd, hu, ?_⟩)
      cases hfs : env.fs f.filePath with
      | none =>
        exact Or.inl ⟨rfl, by simp only [stepFile, hd, Bool.false_eq_true, if_false,
          if_pos hu, hfs]⟩
      | some bytes =>
        cases henc : readAndEncodeFile bytes with
        | error e =>
          exact Or.inr (Or.inl ⟨bytes, e, rfl, henc, by
            simp only [stepFile, hd, Bool.false_eq_true, if_false, if_pos hu, hfs, henc]⟩)
        | ok enc =>
          cases hst : env.store f.filePath enc.content with
          | error e =>
            exact Or.inr (Or.inr (Or.inl ⟨bytes, enc, e, rfl, henc, hst, by
              simp only [stepFile, hd, Bool.false_eq_true, if_false, if_pos hu, hfs, henc,
                hst]⟩))
          | ok u =>
            exact Or.inr (Or.inr (Or.inr ⟨bytes, enc, rfl, henc, by rw [hst], by
              simp only [stepFile, hd, Bool.false_eq_true, if_false, if_pos hu, hfs, henc,
                hst]⟩))
    · rw [Bool.not_eq_true] at hu
      refine Or.inr (Or.inr ⟨hd, hu, ?_⟩)
      simp only [stepFile, hd, hu, Bool.false_eq_true, if_false]

theorem stepFile_else (env : SyncEnv) (lf : List LocalFile) (st : SyncState)
    (f : VerdictFile) (hd : dlCond lf f = false) (hu : upCond lf f = false) :
    stepFile env lf st f = ({ st with upToDate := st.upToDate + 1 }, none) := by
  simp only [stepFile, hd, hu, Bool.false_eq_true, if_false]

theorem stepFile_fetched_sub (env : SyncEnv) (lf : List LocalFile) (st : SyncState)
    (f : VerdictFile) :
    (stepFile env lf st f).1.fetched = st.fetched ∨
      (dlCond lf f = true ∧
        (stepFile env lf st f).1.fetched = st.fetched ++ [f.filePath]) := by
  rcases stepFile_cases env lf st f with
    ⟨hd, ⟨e, hl, heq⟩ | ⟨hl, heq⟩ | ⟨c, hl, heq⟩⟩ |
    ⟨hd, hu, ⟨hfs, heq⟩ | ⟨bytes, e, hfs, henc, heq⟩ |
      ⟨bytes, enc, e, hfs, henc, hst, heq⟩ | ⟨bytes, enc, hfs, henc, hst, heq⟩⟩ |
    ⟨hd, hu, heq⟩ <;>
  rw [heq] <;> simp [hd]

theorem stepFile_stored_sub (env : SyncEnv) (lf : List LocalFile) (st : SyncState)
    (f : VerdictFile) :
    (stepFile env lf st f).1.stored = st.stored ∨
      (upCond lf f = true ∧ ∃ c,
        (stepFile env lf st f).1.stored = st.stored ++ [(f.filePath, c)]) := by
  rcases stepFile_cases env lf st f with
    ⟨hd, ⟨e, hl, heq⟩ | ⟨hl, heq⟩ | ⟨c, hl, heq⟩⟩ |
    ⟨hd, hu, ⟨hfs, heq⟩ | ⟨bytes, e, hfs, henc, heq⟩ |
      ⟨bytes, enc, e, hfs, henc, hst, heq⟩ | ⟨bytes, enc, hfs, henc, hst, heq⟩⟩ |
    ⟨hd, hu, heq⟩ <;>
  rw [heq] <;> simp [*]

theorem stepFile_written_sub (env : SyncEnv) (lf : List LocalFile) (st : SyncState)
    (f : VerdictFile) :
    (stepFile env lf st f).1.written = st.written ∨
      (dlCond lf f = true ∧ ∃ b,
        (stepFile env lf st f).1.written = st.written ++ [(f.filePath, b)]) := by
  rcases stepFile_cases env lf st f with
    ⟨hd, ⟨e, hl, heq⟩ | ⟨hl, heq⟩ | ⟨c, hl, heq⟩⟩ |
    ⟨hd, hu, ⟨hfs, heq⟩ | ⟨bytes, e, hfs, henc, heq⟩ |
      ⟨bytes, enc, e, hfs, henc, hst, heq⟩ | ⟨bytes, enc, hfs, henc, hst, heq⟩⟩ |
    ⟨hd, hu, heq⟩ <;>
  rw [heq] <;> simp [hd]

theorem runSync_cons_none (env : SyncEnv) (lf : List LocalFile) (f : VerdictFile)
    (rest : List VerdictFile) (st st1 : SyncState)
    (h : stepFile env lf st f = (st1, none)) :
    runSync env lf (f :: rest) st = runSync env lf rest st1 := by
  simp only [runSync, h]

theorem runSync_cons_some (env : SyncEnv) (lf : List LocalFile) (f : VerdictFile)
    (rest : List VerdictFile) (st st1 : SyncState) (e : String)
    (h : stepFile env lf st f = (st1, some e)) :
    runSync env lf (f :: rest) st = (st1, some e) := by
  simp only [runSync, h]

theorem runSync_complete_cons (env : SyncEnv) (lf : List LocalFile) (f : VerdictFile)
    (rest : List VerdictFile) (st st' : SyncState)
    (h : runSync env lf (f :: rest) st = (st', none)) :
    ∃ st1, stepFile env lf st f = (st1, none) ∧ runSync env lf rest st1 = (st', none) := by
  rcases hs : stepFile env lf st f with ⟨st1, oe⟩
  cases oe with
  | none =>
    rw [runSync_cons_none env lf f rest st st1 hs] at h
    exact ⟨st1, rfl, h⟩
  | some e =>
    rw [runSync_cons_some env lf f rest st st1 e hs] at h
    simp at h

theorem runSync_fetched_mono (env : SyncEnv) (lf : List LocalFile)
    (vs : List VerdictFile) (st : SyncState) (p : String) (hp : p ∈ st.fetched) :
    p ∈ (runSync env lf vs st).1.fetched := by
  induction vs generalizing st with
  | nil => exact hp
  | cons f rest ih =>
    rcases hs : stepFile env lf st f with ⟨st1, oe⟩
    have hp1 : p ∈ st1.fetched := by
      rcases stepFile_fetched_sub env lf st f with h | ⟨-, h⟩ <;>
        rw [hs] at h <;> simp only at h <;> rw [h] <;> simp [hp]
    cases oe with
    | none => rw [runSync_cons_none env lf f rest st st1 hs]; exact ih st1 hp1
    | some e => rw [runSync_cons_some env lf f rest st st1 e hs]; exact hp1

theorem runSync_written_mono (env : SyncEnv) (lf : List LocalFile)
    (vs : List VerdictFile) (st : SyncState) (w : String × List Nat)
    (hp : w ∈ st.written) : w ∈ (runSync env lf vs st).1.written := by
  induction vs generalizing st with
  | nil => exact hp
  | cons f rest ih =>
    rcases hs : stepFile env lf st f with ⟨st1, oe⟩
    have hp1 : w ∈ st1.written := by
      rcases stepFile_written_sub env lf st f with h | ⟨-, b, h⟩ <;>
        rw [hs] at h <;> simp only at h <;> rw [h] <;> simp [hp]
    cases oe with
    | none => rw [runSync_cons_none env lf f rest st st1 hs]; exact ih st1 hp1
    | some e => rw [runSync_cons_some env lf f rest st st1 e hs]; exact hp1

theorem runSync_fetched_origin (env : SyncEnv) (lf : List LocalFile)
    (vs : List VerdictFile) (st : SyncState) (p : String)
    (hp : p ∈ (runSync env lf vs st).1.fetched) :
    p ∈ st.fetched ∨ ∃ f ∈ vs, dlCond lf f = true ∧ p = f.filePath := by
  induction vs generalizing st with
  | nil => exact Or.inl hp
  | cons f rest ih =>
    have hstep : ∀ st1 : SyncState, stepFile env lf st f = (st1, (stepFile env lf st f).2) →
      p ∈ st1.fetched → p ∈ st.fetched ∨ ∃ g ∈ f :: rest, dlCond lf g = true ∧ p = g.filePath := by
      intro st1 hs hp1
      rcases stepFile_fetched_sub env lf st f with h | ⟨hd, h⟩ <;> rw [hs] at h <;>
        simp only at h <;> rw [h] at hp1
      · exact Or.inl hp1
      · rcases List.mem_append.mp hp1 with hin | hin
        · exact Or.inl hin
        · exact Or.inr ⟨f, by simp, hd, List.mem_singleton.mp hin⟩
    rcases hs : stepFile env lf st f with ⟨st1, oe⟩
    cases oe with
    | none =>
      rw [runSync_cons_none env lf f rest st st1 hs] at hp
      rcases ih st1 hp with h1 | ⟨g, hg, hdg, hpg⟩
      · exact hstep st1 (by rw [hs]) h1
      · exact Or.inr ⟨g, by simp [hg], hdg, hpg⟩
    | some e =>
      rw [runSync_cons_some env lf f rest st st1 e hs] at hp
      exact hstep st1 (by rw [hs]) hp

theorem runSync_stored_origin (env : SyncEnv) (lf : List LocalFile)
    (vs : List VerdictFile) (st : SyncState) (w : String × List Nat)
    (hp : w ∈ (runSync env lf vs st).1.stored) :
    w ∈ st.stored ∨ ∃ f ∈ vs, upCond lf f = true ∧ w.1 = f.filePath := by
  induction vs generalizing st with
  | nil => exact Or.inl hp
  | cons f rest ih =>
    have hstep : ∀ st1 : SyncState, stepFile env lf st f = (st1, (stepFile env lf st f).2) →
      w ∈ st1.stored → w ∈ st.stored ∨ ∃ g ∈ f :: rest, upCond lf g = true ∧ w.1 = g.filePath := by
      intro st1 hs hp1
      rcases stepFile_stored_sub env lf st f with h | ⟨hu, c, h⟩ <;> rw [hs] at h <;>
        simp only at h <;> rw [h] at hp1
      · exact Or.inl hp1
      · rcases List.mem_append.mp hp1 with hin | hin
        · exact Or.inl hin
        · refine Or.inr ⟨f, by simp, hu, ?_⟩
          rw [List.mem_singleton.mp hin]
    rcases hs : stepFile env lf st f with ⟨st1, oe⟩
    cases oe with
    | none =>
      rw [runSync_cons_none env lf f rest st st1 hs] at hp
      rcases ih st1 hp with h1 | ⟨g, hg, hug, hpg⟩
      · exact hstep st1 (by rw [hs]) h1
      · exact Or.inr ⟨g, by simp [hg], hug, hpg⟩
    | some e =>
      rw [runSync_cons_some env lf f rest st st1 e hs] at hp
      exact hstep st1 (by rw [hs]) hp

theorem runSync_written_origin (env : SyncEnv) (lf : List LocalFile)
    (vs : List VerdictFile) (st : SyncState) (w : String × List Nat)
    (hp : w ∈ (runSync env lf vs st).1.written) :
    w ∈ st.written ∨ ∃ f ∈ vs, dlCond lf f = true ∧ w.1 = f.filePath := by
  induction vs generalizing st with
  | nil => exact Or.inl hp
  | cons f rest ih =>
    have hstep : ∀ st1 : SyncState, stepFile env lf st f = (st1, (stepFile env lf st f).2) →
      w ∈ st1.written → w ∈ st.written ∨ ∃ g ∈ f :: rest, dlCond lf g = true ∧ w.1 = g.filePath := by
      intro st1 hs hp1
      rcases stepFile_written_sub env lf st f with h | ⟨hd, b, h⟩ <;> rw [hs] at h <;>
        simp only at h <;> rw [h] at hp1
      · exact Or.inl hp1
      · rcases List.mem_append.mp hp1 with hin | hin
        · exact Or.inl hin
        · refine Or.inr ⟨f, by simp, hd, ?_⟩
          rw [List.mem_singleton.mp hin]
    rcases hs : stepFile env lf st f with ⟨st1, oe⟩
    cases oe with
    | none =>
      rw [runSync_cons_none env lf f rest st st1 hs] at hp
      rcases ih st1 hp with h1 | ⟨g, hg, hdg, hpg⟩
      · exact hstep st1 (by rw [hs]) h1
      · exact Or.inr ⟨g, by simp [hg], hdg, hpg⟩
    | some e =>
      rw [runSync_cons_some env lf f rest st st1 e hs] at hp
      exact hstep st1 (by rw [hs]) hp

/-- The `else` branch (the `upToDate++` branch) is taken exactly for
the verdicts whose status is neither `download_needed` nor
`upload_needed`. -/
theorem else_iff (lf : List LocalFile) (f : VerdictFile) :
    (dlCond lf f = false ∧ upCond lf f = false) ↔
      (f.status ≠ "download_needed" ∧ f.status ≠ "upload_needed") := by
  cases hb : localExists lf f.filePath <;> simp [dlCond, upCond, hb]

theorem stepFile_upToDate (env : SyncEnv) (lf : List LocalFile) (st : SyncState)
    (f : VerdictFile) :
    (stepFile env lf st f).1.upToDate =
      st.upToDate +
        (if f.status ≠ "download_needed" ∧ f.status ≠ "upload_needed" then 1 else 0) := by
  rcases stepFile_cases env lf st f with
    ⟨hd, ⟨e, hl, heq⟩ | ⟨hl, heq⟩ | ⟨c, hl, heq⟩⟩ |
    ⟨hd, hu, ⟨hfs, heq⟩ | ⟨bytes, e, hfs, henc, heq⟩ |
      ⟨bytes, enc, e, hfs, henc, hst, heq⟩ | ⟨bytes, enc, hfs, henc, hst, heq⟩⟩ |
    ⟨hd, hu, heq⟩ <;>
  rw [heq] <;> simp only []
  · rw [if_neg fun hc => by simp [((else_iff lf f).mpr hc).1] at hd]
    omega
  · rw [if_neg fun hc => by simp [((else_iff lf f).mpr hc).1] at hd]
    omega
  · rw [if_neg fun hc => by simp [((else_iff lf f).mpr hc).1] at hd]
    omega
  · rw [if_neg fun hc => by simp [((else_iff lf f).mpr hc).2] at hu]
    omega
  · rw [if_neg fun hc => by simp [((else_iff lf f).mpr hc).2] at hu]
    omega
  · rw [if_neg fun hc => by simp [((else_iff lf f).mpr hc).2] at hu]
    omega
  · rw [if_neg fun hc => by simp [((else_iff lf f).mpr hc).2] at hu]
    omega
  · rw [if_pos ((else_iff lf f).mp ⟨hd, hu⟩)]

theorem runSync_upToDate_count (env : SyncEnv) (lf : List LocalFile)
    (vs : List VerdictFile) (st st' : SyncState)
    (hrun : runSync env lf vs st = (st', none)) :
    st'.upToDate = st.upToDate +
      (vs.filter fun g =>
        g.status != "download_needed" && g.status != "upload_needed").length := by
  induction vs generalizing st with
  | nil =>
    cases hrun
    simp
  | cons f rest ih =>
    obtain ⟨st1, hs, hrun'⟩ := runSync_complete_cons env lf f rest st st' hrun
    have hcnt := stepFile_upToDate env lf st f
    rw [hs] at hcnt
    simp only at hcnt
    rw [ih st1 hrun', hcnt]
    by_cases hc : f.status ≠ "download_needed" ∧ f.status ≠ "upload_needed"
    · rw [if_pos hc, List.filter_cons_of_pos (by simp [hc.1, hc.2])]
      simp only [List.length_cons]
      omega
    · rw [if_neg hc, List.filter_cons_of_neg (by
        intro hcc
        apply hc
        constructor <;> intro heq2 <;> simp [heq2] at hcc)]
      omega

theorem runSync_allUpToDate (env : SyncEnv) (lf : List LocalFile)
    (vs : List VerdictFile) (st : SyncState)
    (h : ∀ f ∈ vs, f.status ≠ "download_needed" ∧ f.status ≠ "upload_needed") :
    runSync env lf vs st = ({ st with upToDate := st.upToDate + vs.length }, none) := by
  induction vs generalizing st with
  | nil => rfl
  | cons f rest ih =>
    obtain ⟨hd, hu⟩ := (else_iff lf f).mpr (h f (by simp))
    rw [runSync_cons_none env lf f rest st _ (stepFile_else env lf st f hd hu),
      ih _ (fun g hg => h g (by simp [hg]))]
    simp only [List.length_cons]
    rw [show st.upToDate + 1 + rest.length = st.upToDate + (rest.length + 1) from by omega]

theorem runSync_dl_effects (env : SyncEnv) (lf : List LocalFile)
    (vs : List VerdictFile) (st st' : SyncState) (f : VerdictFile)
    (hf : f ∈ vs) (hd : dlCond lf f = true)
    (hrun : runSync env lf vs st = (st', none)) :
    f.filePath ∈ st'.fetched ∧
      (∀ c, env.latest f.filePath = Except.ok (some c) →
        (f.filePath, writeDecodedFile c) ∈ st'.written) := by
  induction vs generalizing st with
  | nil => cases hf
  | cons g rest ih =>
    obtain ⟨st1, hs, hrun'⟩ := runSync_complete_cons env lf g rest st st' hrun
    rcases List.mem_cons.mp hf with heqf | hmem
    · subst heqf
      rcases stepFile_cases env lf st f with
        ⟨-, ⟨e, hl, heq2⟩ | ⟨hl, heq2⟩ | ⟨c, hl, heq2⟩⟩ |
        ⟨hdf, -, -⟩ | ⟨hdf, -, -⟩
      · rw [hs] at heq2
        exact absurd heq2 (by simp)
      · rw [hs] at heq2
        have hst1 : st1 = { st with fetched := st.fetched ++ [f.filePath] } := by
          have := congrArg Prod.fst heq2
          simpa using this
        constructor
        · have hmem1 : f.filePath ∈ st1.fetched := by rw [hst1]; simp
          have := runSync_fetched_mono env lf rest st1 f.filePath hmem1
          rwa [hrun'] at this
        · intro c hlc
          rw [hl] at hlc
          simp at hlc
      · rw [hs] at heq2
        have hst1 : st1 = { st with
            results := st.results ++ [ActionLine.down f.filePath],
            downloaded := st.downloaded + 1,
            fetched := st.fetched ++ [f.filePath],
            written := st.written ++ [(f.filePath, writeDecodedFile c)] } := by
          have := congrArg Prod.fst heq2
          simpa using this
        constructor
        · have hmem1 : f.filePath ∈ st1.fetched := by rw [hst1]; simp
          have := runSync_fetched_mono env lf rest st1 f.filePath hmem1
          rwa [hrun'] at this
        · intro c2 hlc
          rw [hl] at hlc
          have hc2 : c2 = c := by
            have := (Except.ok.injEq _ _).mp hlc.symm
            exact (Option.some.injEq _ _).mp this
          subst hc2
          have hmem1 : (f.filePath, writeDecodedFile c2) ∈ st1.written := by
            rw [hst1]; simp
          have := runSync_written_mono env lf rest st1 _ hmem1
          rwa [hrun'] at this
      · exact absurd hd (by rw [hdf]; simp)
      · exact absurd hd (by rw [hdf]; simp)
    · exact ih st1 hmem hrun'

/-- Frame property shared by every verdict that selects the source's
`else` branch: no latest request, no store request, no disk write for
that path in the whole (completed) run. -/
theorem frames_of_not_transfer (env : SyncEnv) (lf : List LocalFile)
    (vs : List VerdictFile) (st' : SyncState) (f : VerdictFile)
    (hnd : (vs.map VerdictFile.filePath).Nodup) (hmem : f ∈ vs)
    (h1 : f.status ≠ "download_needed") (h2 : f.status ≠ "upload_needed")
    (hrun : runSync env lf vs initState = (st', none)) :
    f.filePath ∉ st'.fetched ∧ (∀ c, (f.filePath, c) ∉ st'.stored) ∧
      (∀ b, (f.filePath, b) ∉ st'.written) := by
  have hfst : (runSync env lf vs initState).1 = st' := by rw [hrun]
  obtain ⟨hd, hu⟩ := (else_iff lf f).mpr ⟨h1, h2⟩
  have huniq : ∀ g ∈ vs, g.filePath = f.filePath → g = f := fun g hg hgf =>
    List.inj_on_of_nodup_map hnd hg hmem hgf
  refine ⟨?_, ?_, ?_⟩
  · intro hp
    rcases runSync_fetched_origin env lf vs initState f.filePath (by rw [hfst]; exact hp)
      with h0 | ⟨g, hg, hdg, hpg⟩
    · simp [initState] at h0
    · rw [huniq g hg hpg.symm] at hdg
      rw [hd] at hdg
      cases hdg
  · intro c hp
    rcases runSync_stored_origin env lf vs initState (f.filePath, c) (by rw [hfst]; exact hp)
      with h0 | ⟨g, hg, hug, hpg⟩
    · simp [initState] at h0
    · rw [huniq g hg hpg.symm] at hug
      rw [hu] at hug
      cases hug
  · intro b hp
    rcases runSync_written_origin env lf vs initState (f.filePath, b) (by rw [hfst]; exact hp)
      with h0 | ⟨g, hg, hdg, hpg⟩
    · simp [initState] at h0
    · rw [huniq g hg hpg.symm] at hdg
      rw [hd] at hdg
      cases hdg

/-- C1: for a shared file whose server verdict is `upload_needed` but
whose local snapshot records `exists = false`, the reconciler takes the
download branch: it requests the latest remote content, writes the
decoded bytes locally when the server has content, and never issues a
store (upload) request for that path. -/
theorem c1_upload_override (env : SyncEnv) (lf : List LocalFile)
    (vs : List VerdictFile) (st' : SyncState) (f : VerdictFile) (l : LocalFile)
    (hmem : f ∈ vs) (hstat : f.status = "upload_needed")
    (hfind : lf.find? (fun g => g.filePath == f.filePath) = some l)
    (hex : l.exists' = false)
    (hrun : runSync env lf vs initState = (st', none)) :
    f.filePath ∈ st'.fetched ∧
    (∀ c, (f.filePath, c) ∉ st'.stored) ∧
    (∀ content, env.latest f.filePath = Except.ok (some content) →
      (f.filePath, writeDecodedFile content) ∈ st'.written) := by
  have hle : localExists lf f.filePath = false := by
    simp [localExists, hfind, hex]
  have hd : dlCond lf f = true := by
    simp [dlCond, hstat, hle]
  obtain ⟨hfet, hwr⟩ := runSync_dl_effects env lf vs initState st' f hmem hd hrun
  refine ⟨hfet, ?_, hwr⟩
  intro c hc
  have hfst : (runSync env lf vs initState).1 = st' := by rw [hrun]
  rcases runSync_stored_origin env lf vs initState (f.filePath, c) (by rw [hfst]; exact hc)
    with h0 | ⟨g, hg, hug, hpg⟩
  · simp [initState] at h0
  · have hleg : localExists lf g.filePath = false := by
      rw [← hpg]
      exact hle
    rw [upCond, hleg] at hug
    simp at hug

/-- C3 (amended): an error raised while transferring one file aborts
the remaining files' transfers: the loop (wrapped in a single
`try/catch`) returns at once with the state reached so far and the
error, whatever verdicts remain — sibling transfers are not attempted. -/
theorem c3_failure_aborts (env : SyncEnv) (lf : List LocalFile) (f : VerdictFile)
    (st st1 : SyncState) (e : String)
    (h : stepFile env lf st f = (st1, some e)) :
    ∀ rest, runSync env lf (f :: rest) st = (st1, some e) :=
  fun rest => runSync_cons_some env lf f rest st st1 e h

/-- C3 is false as stated: with two files both needing download, a
thrown error on `a.txt`'s transfer makes the whole run return `Sync
failed` at once — `b.txt`'s transfer is never attempted (no latest
request, no store, no write for it). -/
theorem c3_counterexample :
    runSync envC3 lfC vsC initState =
      (⟨[], 0, 0, 0, ["a.txt"], [], []⟩, some "network error") ∧
    "b.txt" ∉ (runSync envC3 lfC vsC initState).1.fetched ∧
    (runSync envC3 lfC vsC initState).1.stored = [] ∧
    (runSync envC3 lfC vsC initState).1.written = [] := by
  refine ⟨by decide, by decide, by decide, by decide⟩

/-- Witness for `c3_failure_aborts` at the concrete run of `envC3`. -/
theorem c3_failure_aborts_witness :
    runSync envC3 lfC (⟨"a.txt", "download_needed"⟩ :: [⟨"b.txt", "download_needed"⟩])
        initState =
      ({ initState with fetched := ["a.txt"] }, some "network error") :=
  c3_failure_aborts envC3 lfC ⟨"a.txt", "download_needed"⟩ initState
    { initState with fetched := ["a.txt"] } "network error" (by decide)
    [⟨"b.txt", "download_needed"⟩]

/-- C4 (amended): a file whose verdict requires a download but whose
latest-content lookup returns no data is silently skipped: the
iteration records only the latest request — no write, no results line,
no counter — raises nothing, and the batch continues with the
remaining files. (The condition is NOT reported per-file: the file is
simply absent from the result.) -/
theorem c4_missing_remote_skips (env : SyncEnv) (lf : List LocalFile)
    (f : VerdictFile) (st : SyncState)
    (hdl : dlCond lf f = true) (hlat : env.latest f.filePath = Except.ok none) :
    stepFile env lf st f = ({ st with fetched := st.fetched ++ [f.filePath] }, none) ∧
    ∀ rest, runSync env lf (f :: rest) st =
      runSync env lf rest { st with fetched := st.fetched ++ [f.filePath] } := by
  have hstep : stepFile env lf st f =
      ({ st with fetched := st.fetched ++ [f.filePath] }, none) := by
    simp only [stepFile, if_pos hdl, hlat]
  exact ⟨hstep, fun rest => runSync_cons_none env lf f rest st _ hstep⟩

/-- C4 is false as stated: when `a.txt` needs a download but the
latest lookup returns no data, the run completes and still processes
`b.txt` (not fatal — that half of the claim holds), but nothing about
`a.txt` is reported: no results line mentions it and it is counted in
no tally (downloaded 1, uploaded 0, up-to-date 0). -/
theorem c4_counterexample :
    runSync envC4 lfC vsC initState =
      (⟨[ActionLine.down "b.txt"], 1, 0, 0, ["a.txt", "b.txt"], [],
        [("b.txt", [104, 105])]⟩, none) ∧
    ActionLine.down "a.txt" ∉ (runSync envC4 lfC vsC initState).1.results ∧
    ActionLine.up "a.txt" ∉ (runSync envC4 lfC vsC initState).1.results := by
  refine ⟨by decide, by decide, by decide⟩

/-- Witness for `c4_missing_remote_skips` at the concrete run of
`envC4`. -/
theorem c4_missing_remote_skips_witness :
    stepFile envC4 lfC initState ⟨"a.txt", "download_needed"⟩ =
      ({ initState with fetched := ["a.txt"] }, none) ∧
    runSync envC4 lfC [⟨"a.txt", "download_needed"⟩, ⟨"b.txt", "download_needed"⟩]
        initState =
      runSync envC4 lfC [⟨"b.txt", "download_needed"⟩] { initState with fetched := ["a.txt"] } :=
  ⟨(c4_missing_remote_skips envC4 lfC ⟨"a.txt", "download_needed"⟩ initState
      (by decide) rfl).1,
    (c4_missing_remote_skips envC4 lfC ⟨"a.txt", "download_needed"⟩ initState
      (by decide) rfl).2 [⟨"b.txt", "download_needed"⟩]⟩

/-- C9: an `up_to_date` verdict is untouched — in a completed run with
distinct verdict paths, no latest request, no store request and no
disk write occur for that path — and a run in which every verdict is
`up_to_date` completes with zero downloads, zero uploads, and every
file in the up-to-date tally (idempotence when nothing changed). -/
theorem c9_up_to_date_untouched :
    (∀ (env : SyncEnv) (lf : List LocalFile) (vs : List VerdictFile)
      (st' : SyncState) (f : VerdictFile),
      (vs.map VerdictFile.filePath).Nodup → f ∈ vs → f.status = "up_to_date" →
      runSync env lf vs initState = (st', none) →
      f.filePath ∉ st'.fetched ∧ (∀ c, (f.filePath, c) ∉ st'.stored) ∧
        (∀ b, (f.filePath, b) ∉ st'.written)) ∧
    (∀ (env : SyncEnv) (lf : List LocalFile) (vs : List VerdictFile),
      (∀ f ∈ vs, f.status = "up_to_date") →
      runSync env lf vs initState = ({ initState with upToDate := vs.length }, none)) := by
  constructor
  · intro env lf vs st' f hnd hmem hstat hrun
    exact frames_of_not_transfer env lf vs st' f hnd hmem
      (by rw [hstat]; decide) (by rw [hstat]; decide) hrun
  · intro env lf vs h
    have := runSync_allUpToDate env lf vs initState
      (fun f hf => by rw [h f hf]; exact ⟨by decide, by decide⟩)
    simpa [initState] using this

/-- Witness for `c9_up_to_date_untouched`: one `up_to_date` file,
arbitrary local snapshot; the run completes counting it up-to-date
with empty traces. -/
theorem c9_up_to_date_untouched_witness :
    ("x" ∉ (⟨[], 0, 0, 1, [], [], []⟩ : SyncState).fetched ∧
      (∀ c, ("x", c) ∉ (⟨[], 0, 0, 1, [], [], []⟩ : SyncState).stored) ∧
      (∀ b, ("x", b) ∉ (⟨[], 0, 0, 1, [], [], []⟩ : SyncState).written)) ∧
    runSync envC3 [] [⟨"x", "up_to_date"⟩] initState =
      ({ initState with upToDate := 1 }, none) :=
  ⟨c9_up_to_date_untouched.1 envC3 [] [⟨"x", "up_to_date"⟩]
      ⟨[], 0, 0, 1, [], [], []⟩ ⟨"x", "up_to_date"⟩ (by decide) (by simp) rfl rfl,
    c9_up_to_date_untouched.2 envC3 [] [⟨"x", "up_to_date"⟩]
      (by intro f hf; simp at hf; rw [hf])⟩

/-- C10: a verdict whose status is neither `download_needed` nor
`upload_needed` — any unrecognized string included — is treated
exactly like `up_to_date`: no transfer, no disk write, and it is
counted in the up-to-date tally, which in a completed run equals
exactly the number of verdicts outside the two transfer branches. -/
theorem c10_unrecognized_status :
    (∀ (env : SyncEnv) (lf : List LocalFile) (vs : List VerdictFile)
      (st' : SyncState) (f : VerdictFile),
      (vs.map VerdictFile.filePath).Nodup → f ∈ vs →
      f.status ≠ "download_needed" → f.status ≠ "upload_needed" →
      runSync env lf vs initState = (st', none) →
      f.filePath ∉ st'.fetched ∧ (∀ c, (f.filePath, c) ∉ st'.stored) ∧
        (∀ b, (f.filePath, b) ∉ st'.written)) ∧
    (∀ (env : SyncEnv) (lf : List LocalFile) (vs : List VerdictFile) (st' : SyncState),
      runSync env lf vs initState = (st', none) →
      st'.upToDate = (vs.filter fun g =>
        g.status != "download_needed" && g.status != "upload_needed").length) := by
  constructor
  · intro env lf vs st' f hnd hmem h1 h2 hrun
    exact frames_of_not_transfer env lf vs st' f hnd hmem h1 h2 hrun
  · intro env lf vs st' hrun
    have := runSync_upToDate_count env lf vs initState st' hrun
    simpa [initState] using this

/-- Witness for `c10_unrecognized_status`: a verdict with the
unrecognized status `mystery` is left untouched and counted
up-to-date. -/
theorem c10_unrecognized_status_witness :
    ("x" ∉ (⟨[], 0, 0, 1, [], [], []⟩ : SyncState).fetched ∧
      (∀ c, ("x", c) ∉ (⟨[], 0, 0, 1, [], [], []⟩ : SyncState).stored) ∧
      (∀ b, ("x", b) ∉ (⟨[], 0, 0, 1, [], [], []⟩ : SyncState).written)) ∧
    (⟨[], 0, 0, 1, [], [], []⟩ : SyncState).upToDate =
      ([⟨"x", "mystery"⟩].filter fun g : VerdictFile =>
        g.status != "download_needed" && g.status != "upload_needed").length :=
  ⟨c10_unrecognized_status.1 envC3 [] [⟨"x", "mystery"⟩]
      ⟨[], 0, 0, 1, [], [], []⟩ ⟨"x", "mystery"⟩ (by decide) (by simp)
      (by decide) (by decide) rfl,
    c10_unrecognized_status.2 envC3 [] [⟨"x", "mystery"⟩]
      ⟨[], 0, 0, 1, [], [], []⟩ rfl⟩

/-- Witness for `c1_upload_override`: verdict `upload_needed` for a
locally absent file ends as a download of the remote content. -/
theorem c1_upload_override_witness :
    "x" ∈ (⟨[ActionLine.down "x"], 1, 0, 0, ["x"], [], [("x", [104])]⟩ : SyncState).fetched ∧
    (∀ c, ("x", c) ∉
      (⟨[ActionLine.down "x"], 1, 0, 0, ["x"], [], [("x", [104])]⟩ : SyncState).stored) ∧
    (∀ content, envW1.latest "x" = Except.ok (some content) →
      ("x", writeDecodedFile content) ∈
        (⟨[ActionLine.down "x"], 1, 0, 0, ["x"], [], [("x", [104])]⟩ : SyncState).written) :=
  c1_upload_override envW1 (buildLocalFiles envW1 ["x"]) [⟨"x", "upload_needed"⟩]
    ⟨[ActionLine.down "x"], 1, 0, 0, ["x"], [], [("x", [104])]⟩
    ⟨"x", "upload_needed"⟩ ⟨"x", "", false⟩ (by simp) rfl (by decide) rfl rfl
